import Mathlib

/-!
Shallow embedding of `graelo/tmux-lib` (Rust) for specification checking.

Byte buffers are modelled as `List Nat` (each element a byte value), text as
`List Char`.  Fallible Rust code returns `Except`/`Option`; a Rust panic
(`unwrap`, `expect`, arithmetic underflow with overflow checks on) is
modelled as `Option.none`.
-/

deriving instance DecidableEq for Except

namespace TmuxLib

/-! ## src/utils.rs -/

/-- Function `is_whitespace` from src/utils.rs: a byte is `b'\t'` (9) or `b' '` (32). -/
def isWhitespaceByte (c : Nat) : Bool :=
  c = 9 || c = 32

/-- Rust `Iterator::rposition`: index of the last element satisfying `p`.
Used by `SliceExt::trim_trailing` and `drop_last_empty_lines`. -/
def rposition {α : Type} (p : α → Bool) : List α → Option Nat
  | [] => none
  | a :: as_ =>
    match rposition p as_ with
    | some i => some (i + 1)
    | none => if p a then some 0 else none

/-- Method `SliceExt::trim_trailing` from src/utils.rs: keep the prefix up to and
including the last non-whitespace byte; all-whitespace slices become `[]`. -/
def trim_trailing (line : List Nat) : List Nat :=
  match rposition (fun c => !isWhitespaceByte c) line with
  | some last => line.take (last + 1)
  | none => []

/-- Rust `slice::split(|c| *c == sep)`: pieces between separators; `n`
separators yield `n + 1` pieces, the empty slice yields one empty piece. -/
def splitSep {α : Type} [DecidableEq α] (sep : α) : List α → List (List α)
  | [] => [[]]
  | c :: rest =>
    if c = sep then [] :: splitSep sep rest
    else
      match splitSep sep rest with
      | [] => [[c]]
      | l :: ls => (c :: l) :: ls

/-- Function `buf_trim_trailing` from src/utils.rs: split on `b'\n'` (10) and trim
each line's trailing whitespace. -/
def buf_trim_trailing (buf : List Nat) : List (List Nat) :=
  (splitSep 10 buf).map trim_trailing

/-- Function `drop_last_empty_lines` from src/utils.rs: truncate after the last
non-empty line; if every line is empty the list is returned unchanged. -/
def drop_last_empty_lines (lines : List (List Nat)) : List (List Nat) :=
  match rposition (fun line => !line.isEmpty) lines with
  | some last => lines.take (last + 1)
  | none => lines

/-- The ANSI SGR reset escape `"\u{001b}[0m"` as bytes (src/utils.rs line 80). -/
def resetSeq : List Nat := [27, 91, 48, 109]

/-- The reset sequence followed by the terminating newline. -/
def resetNl : List Nat := resetSeq ++ [10]

/-- The joining loop of `cleanup_captured_buffer` (src/utils.rs lines 74-86):
each line is emitted followed by `b'\n'`; the last line additionally gets the
reset escape before its newline. -/
def joinLines : List (List Nat) → List Nat
  | [] => []
  | [l] => l ++ resetSeq ++ [10]
  | l :: ls => l ++ 10 :: joinLines ls

/-- Rust `usize` subtraction with overflow checks: panics (`none`) when the
subtrahend exceeds the minuend.  Models `buffer.len() - drop_n_last_lines`
at src/utils.rs line 71. -/
def checkedSub (a b : Nat) : Option Nat :=
  if b ≤ a then some (a - b) else none

/-- The cleaned line sequence: per-line trailing-whitespace trim followed by
`drop_last_empty_lines` (src/utils.rs lines 69-70). -/
def cleanedLines (buf : List Nat) : List (List Nat) :=
  drop_last_empty_lines (buf_trim_trailing buf)

/-- Function `cleanup_captured_buffer` from src/utils.rs.  `none` models the panic of
the unchecked `usize` subtraction `buffer.len() - drop_n_last_lines` when
`drop_n_last_lines` exceeds the cleaned line count; `Vec::truncate(m)` keeps
the first `m` lines. -/
def cleanup_captured_buffer (buffer : List Nat) (drop_n_last_lines : Nat) :
    Option (List Nat) :=
  match checkedSub (cleanedLines buffer).length drop_n_last_lines with
  | some m => some (joinLines ((cleanedLines buffer).take m))
  | none => none

/-- Join pieces with a single separator element between consecutive pieces
(the meaning of "rejoin with `\n` separators"). -/
def joinSep {α : Type} (sep : α) : List (List α) → List α
  | [] => []
  | [l] => l
  | l :: ls => l ++ sep :: joinSep sep ls

/-- Modelled from the spec (§4.6 step 5): "Rejoin with `\n` separators.
After the final line's content, append `ESC [ 0 m` and then a terminating
`\n`."  With zero lines there is nothing to rejoin. -/
def specJoin (lines : List (List Nat)) : List Nat :=
  if lines.isEmpty then [] else joinSep 10 lines ++ resetSeq ++ [10]

/-- Modelled from the spec (claim wording for the truncation bound): the
cleaned lines "after per-line trimming of trailing spaces/tabs and removal
of the suffix of empty lines", with the empty-line suffix removed
unconditionally (no all-empty caveat). -/
def specCleanedLines (buf : List Nat) : List (List Nat) :=
  match rposition (fun line => !line.isEmpty) (buf_trim_trailing buf) with
  | some last => (buf_trim_trailing buf).take (last + 1)
  | none => []

/-- The payload joined by `cleanup_captured_buffer`: the first `L - k`
cleaned lines, where `L` is the cleaned line count. -/
def payloadLines (buf : List Nat) (k : Nat) : List (List Nat) :=
  (cleanedLines buf).take ((cleanedLines buf).length - k)

/-- The whitespace/newline perturbation of claim C4: append whitespace `ws i`
to the end of line `i` of `B` and append `m` extra trailing newlines. -/
def appendWsPerLine (B : List Nat) (ws : List (List Nat)) (m : Nat) : List Nat :=
  joinSep 10 (List.zipWith (· ++ ·) (splitSep 10 B) ws) ++ List.replicate m 10

/-! ## src/error.rs -/

/-- A captured process result (`std::process::Output`): exit status plus the
stdout/stderr byte buffers. -/
structure Output where
  status : Int
  stdout : List Nat
  stderr : List Nat
deriving DecidableEq

/-- The error taxonomy of src/error.rs (payloads reduced to what the claims
observe; the nom error payload of `ParseError` and the io source are
omitted). -/
inductive Error where
  | unexpectedTmuxOutput (intent : String) (stdout stderr : List Char)
  | tmuxConfig (msg : String)
  | parseError (desc intent : String)
  | utf8
  | io (code : Int)
deriving DecidableEq

/-- The Unicode replacement character `U+FFFD`. -/
def replacementChar : Char := Char.ofNat 0xFFFD

/-- Whether a byte is a UTF-8 continuation byte (`0x80..=0xBF`). -/
def isUtf8Cont (c : Nat) : Bool := 0x80 ≤ c && c ≤ 0xBF

/-- Valid range of the second byte of a three-byte UTF-8 sequence (excludes
overlong forms after `0xE0` and surrogates after `0xED`). -/
def utf8Second3 (b c1 : Nat) : Bool :=
  if b = 0xE0 then 0xA0 ≤ c1 && c1 ≤ 0xBF
  else if b = 0xED then 0x80 ≤ c1 && c1 ≤ 0x9F
  else isUtf8Cont c1

/-- Valid range of the second byte of a four-byte UTF-8 sequence (excludes
overlong forms after `0xF0` and values above `U+10FFFF` after `0xF4`). -/
def utf8Second4 (b c1 : Nat) : Bool :=
  if b = 0xF0 then 0x90 ≤ c1 && c1 ≤ 0xBF
  else if b = 0xF4 then 0x80 ≤ c1 && c1 ≤ 0x8F
  else isUtf8Cont c1

/-- Decode one UTF-8 sequence starting at byte `b` with lookahead `rest`:
the decoded character (`U+FFFD` on an invalid or truncated sequence) and
how many lookahead bytes the sequence consumed.  Replacement granularity
follows Rust `String::from_utf8_lossy` (one replacement per maximal valid
prefix of an invalid sequence). -/
def utf8Step (b : Nat) (rest : List Nat) : Char × Nat :=
  if b ≤ 0x7F then (Char.ofNat b, 0)
  else if 0xC2 ≤ b && b ≤ 0xDF then
    match rest with
    | c1 :: _ =>
      if isUtf8Cont c1 then (Char.ofNat ((b - 0xC0) * 64 + (c1 - 0x80)), 1)
      else (replacementChar, 0)
    | [] => (replacementChar, 0)
  else if 0xE0 ≤ b && b ≤ 0xEF then
    match rest with
    | c1 :: c2 :: _ =>
      if utf8Second3 b c1 then
        if isUtf8Cont c2 then
          (Char.ofNat ((b - 0xE0) * 4096 + (c1 - 0x80) * 64 + (c2 - 0x80)), 2)
        else (replacementChar, 1)
      else (replacementChar, 0)
    | [c1] => if utf8Second3 b c1 then (replacementChar, 1) else (replacementChar, 0)
    | [] => (replacementChar, 0)
  else if 0xF0 ≤ b && b ≤ 0xF4 then
    match rest with
    | c1 :: c2 :: c3 :: _ =>
      if utf8Second4 b c1 then
        if isUtf8Cont c2 then
          if isUtf8Cont c3 then
            (Char.ofNat ((b - 0xF0) * 262144 + (c1 - 0x80) * 4096
              + (c2 - 0x80) * 64 + (c3 - 0x80)), 3)
          else (replacementChar, 2)
        else (replacementChar, 1)
      else (replacementChar, 0)
    | [c1, c2] =>
      if utf8Second4 b c1 then
        if isUtf8Cont c2 then (replacementChar, 2) else (replacementChar, 1)
      else (replacementChar, 0)
    | [c1] => if utf8Second4 b c1 then (replacementChar, 1) else (replacementChar, 0)
    | [] => (replacementChar, 0)
  else (replacementChar, 0)

/-- Decoding loop for `fromUtf8Lossy`.  The recursion is driven by a fuel
counter so that the definition is structurally recursive (and therefore
evaluable by the kernel); every step consumes at least one byte, so fuel
equal to the buffer length never runs out. -/
def utf8LossyLoop : Nat → List Nat → List Char
  | _, [] => []
  | 0, _ :: _ => []
  | fuel + 1, b :: rest =>
    (utf8Step b rest).1 :: utf8LossyLoop fuel (rest.drop (utf8Step b rest).2)

/-- Rust `String::from_utf8_lossy` (std, called at src/error.rs lines
75-76): decode UTF-8, substituting `U+FFFD` for invalid data. -/
def fromUtf8Lossy (bytes : List Nat) : List Char :=
  utf8LossyLoop bytes.length bytes

/-- Function `check_empty_process_output` from src/error.rs: fails with
`UnexpectedTmuxOutput` when stdout or stderr is non-empty; the exit status
is never inspected. -/
def check_empty_process_output (output : Output) (intent : String) :
    Except Error Unit :=
  if !output.stdout.isEmpty || !output.stderr.isEmpty then
    .error (.unexpectedTmuxOutput intent (fromUtf8Lossy output.stdout)
      (fromUtf8Lossy output.stderr))
  else
    .ok ()

/-! ## src/session_id.rs, src/window_id.rs, and the pane-ID parser -/

/-- A decimal digit character. -/
def decChar (d : Nat) : Char := Char.ofNat (48 + d)

/-- Digit-production loop for `decimal`, driven by a fuel counter so that
the definition is structurally recursive; each round divides `n` by ten, so
fuel `n + 1` never runs out. -/
def decimalAux : Nat → Nat → List Char
  | 0, _ => []
  | fuel + 1, n =>
    if n < 10 then [decChar n] else decimalAux fuel (n / 10) ++ [decChar (n % 10)]

/-- The decimal representation of `n`, most significant digit first. -/
def decimal (n : Nat) : List Char :=
  decimalAux (n + 1) n

/-- nom `digit1`: consume the maximal non-empty run of ASCII digits; fail
when the input does not start with a digit. -/
def digit1 (input : List Char) : Option (List Char × List Char) :=
  if (input.takeWhile Char.isDigit).isEmpty then none
  else some (input.dropWhile Char.isDigit, input.takeWhile Char.isDigit)

/-- Type `SessionId` from src/session_id.rs: wraps the raw textual form `$<n>`. -/
structure SessionId where
  raw : List Char
deriving DecidableEq

/-- Method `SessionId::as_str`. -/
def SessionId.as_str (s : SessionId) : List Char := s.raw

/-- Function `parse::session_id` from src/session_id.rs: `preceded(char('$'), digit1)`,
rebuilding the id as `$` followed by the digits; trailing input remains. -/
def session_id_parse (input : List Char) : Option (List Char × SessionId) :=
  match input with
  | c :: rest =>
    if c = '$' then
      match digit1 rest with
      | some (rem, ds) => some (rem, ⟨'$' :: ds⟩)
      | none => none
    else none
  | [] => none

/-- Method `SessionId::from_str`: the parser wrapped in `all_consuming`. -/
def SessionId.from_str (input : List Char) : Except Error SessionId :=
  match session_id_parse input with
  | some ([], id) => .ok id
  | _ => .error (.parseError "SessionId" "##\x7bsession_id\x7d")

/-- Type `WindowId` from src/window_id.rs: wraps the raw textual form `@<n>`. -/
structure WindowId where
  raw : List Char
deriving DecidableEq

/-- Method `WindowId::as_str`. -/
def WindowId.as_str (w : WindowId) : List Char := w.raw

/-- Function `parse::window_id` from src/window_id.rs. -/
def window_id_parse (input : List Char) : Option (List Char × WindowId) :=
  match input with
  | c :: rest =>
    if c = '@' then
      match digit1 rest with
      | some (rem, ds) => some (rem, ⟨'@' :: ds⟩)
      | none => none
    else none
  | [] => none

/-- Method `WindowId::from_str`. -/
def WindowId.from_str (input : List Char) : Except Error WindowId :=
  match window_id_parse input with
  | some ([], id) => .ok id
  | _ => .error (.parseError "WindowId" "##\x7bwindow_id\x7d")

/-- Modelled from the spec: the pane module is not under src/; per spec
§4.2 the pane-ID grammar is the factor-`%` instance of the same id parser
(`%` followed by one or more ASCII digits, constructor wrapped in an
all-input-consumed check), with the textual form kept verbatim. -/
structure PaneId where
  raw : List Char
deriving DecidableEq

/-- Modelled from the spec: `PaneId::as_str`, the raw textual form. -/
def PaneId.as_str (p : PaneId) : List Char := p.raw

/-- Modelled from the spec: the pane-ID lexical parser, factor `%`. -/
def pane_id_parse (input : List Char) : Option (List Char × PaneId) :=
  match input with
  | c :: rest =>
    if c = '%' then
      match digit1 rest with
      | some (rem, ds) => some (rem, ⟨'%' :: ds⟩)
      | none => none
    else none
  | [] => none

/-- Modelled from the spec: the pane-ID constructor from a string, with the
all-input-consumed check. -/
def PaneId.from_str (input : List Char) : Except Error PaneId :=
  match pane_id_parse input with
  | some ([], id) => .ok id
  | _ => .error (.parseError "PaneId" "##\x7bpane_id\x7d")

/-! ## src/server.rs -/

/-- ASCII whitespace as used by Rust `str::trim_end` / `str::trim_start`
(the library only ever meets ASCII here). -/
def isStrWhitespace (c : Char) : Bool :=
  c = ' ' || c = '\t' || c = '\n' || c = '\x0d'

/-- Rust `str::trim_end`. -/
def trimEnd (s : List Char) : List Char :=
  (s.reverse.dropWhile isStrWhitespace).reverse

/-- Rust `str::trim_start`. -/
def trimStart (s : List Char) : List Char :=
  s.dropWhile isStrWhitespace

/-- Rust `str::find(' ')`: index of the first space, if any. -/
def findIdxOfSpace : List Char → Option Nat
  | [] => none
  | c :: rest => if c = ' ' then some 0 else (findIdxOfSpace rest).map (· + 1)

/-- One line of `show-options` output, as processed at src/server.rs line
114-115: `split_at` the first space (the `unwrap` panic on a space-less
line is modelled by `none`), then `trim_start` the value. -/
def parseOptionLine (line : List Char) : Option (List Char × List Char) :=
  match findIdxOfSpace line with
  | some i => some (line.take i, trimStart (line.drop i))
  | none => none

/-- Collect an iterator of fallible items, stopping at the first failure
(the failure here being the modelled `unwrap` panic). -/
def collectOptionList {α β : Type} (f : α → Option β) : List α → Option (List β)
  | [] => some []
  | a :: as_ =>
    match f a with
    | none => none
    | some b =>
      match collectOptionList f as_ with
      | none => none
      | some bs => some (b :: bs)

/-- The pure parsing part of `show_options` (src/server.rs lines 111-118):
trim the buffer end, split on `\n`, split each line at its first space
(panicking when there is none), trim the value, and drop entries whose
value is empty or the literal `''`. -/
def show_options_parse (stdout : List Char) :
    Option (List (List Char × List Char)) :=
  match collectOptionList parseOptionLine (splitSep '\n' (trimEnd stdout)) with
  | some pairs =>
    some (pairs.filter fun kv => !kv.2.isEmpty && !(kv.2 == ['\'', '\'']))
  | none => none

/-- Rust `str::ends_with`, expressed on the character lists. -/
def strEndsWith (s suff : String) : Bool :=
  suff.toList.isSuffixOf s.toList

/-- Function `default_command` from src/server.rs, parameterised by the global
options map (`HashMap::get` abstracted as a lookup function): read
`default-shell` (failing with `TmuxConfig` when absent), prefix `-l ` when
it ends with `bash`, then prefer the `default-command` entry over the
derived shell. -/
def default_command (opts : String → Option String) : Except Error String :=
  match opts "default-shell" with
  | none => .error (.tmuxConfig "no default-shell")
  | some cmd =>
    let shell := if strEndsWith cmd "bash" then "-l " ++ cmd else cmd
    match opts "default-command" with
    | some c => .ok c
    | none => .ok shell

/-! ## src/parse.rs and src/client.rs: the client record parser -/

/-- Body grammar of a single-quoted string: any sequence of characters
other than `\` and `'`, interspersed with `\'` escape pairs (src/parse.rs:
`escaped(none_of("\\\'"), '\\', tag("'"))`). -/
def validBody : List Char → Bool
  | [] => true
  | c :: rest =>
    if c = '\\' then
      match rest with
      | c2 :: rest2 => if c2 = '\'' then validBody rest2 else false
      | [] => false
    else if c = '\'' then false
    else validBody rest

/-- The greedy loop of nom's `escaped` combinator with
`normal = none_of("\\\'")` and escapable `tag("'")`: returns the consumed
prefix and the remaining input.  It stops in front of a bare `'`; a `\`
not followed by `'` (or at the end of input) is an error (`none`). -/
def escLoop : List Char → Option (List Char × List Char)
  | [] => some ([], [])
  | c :: rest =>
    if c = '\\' then
      match rest with
      | c2 :: rest2 =>
        if c2 = '\'' then
          match escLoop rest2 with
          | some (cs, rem) => some ('\\' :: '\'' :: cs, rem)
          | none => none
        else none
      | [] => none
    else if c = '\'' then some ([], c :: rest)
    else
      match escLoop rest with
      | some (cs, rem) => some (c :: cs, rem)
      | none => none

/-- nom `escaped(none_of("\\\'"), '\\', tag("'"))` as used in src/parse.rs:
the greedy loop, except that consuming nothing while input remains is an
error.  Returns `(remaining, consumed)` like the Rust parser. -/
def escaped (input : List Char) : Option (List Char × List Char) :=
  match escLoop input with
  | some (cs, rem) => if cs.isEmpty && !rem.isEmpty then none else some (rem, cs)
  | none => none

/-- The body parser of `quoted_string`: `alt((escaped(..), tag("")))`
(src/parse.rs line 14) — falls back to consuming nothing when `escaped`
fails. -/
def escOrEmpty (rest : List Char) : List Char × List Char :=
  match escaped rest with
  | some p => p
  | none => (rest, [])

/-- Function `quoted_string` from src/parse.rs: a possibly-empty escaped body
delimited by single quotes; trailing input remains. -/
def quoted_string (input : List Char) : Option (List Char × List Char) :=
  match input with
  | c :: rest =>
    if c = '\'' then
      match escOrEmpty rest with
      | (c2 :: rest2, body) => if c2 = '\'' then some (rest2, body) else none
      | ([], _) => none
    else none
  | [] => none

/-- Function `quoted_nonempty_string` from src/parse.rs: as `quoted_string` but
without the empty fallback, so the body must be non-empty. -/
def quoted_nonempty_string (input : List Char) : Option (List Char × List Char) :=
  match input with
  | c :: rest =>
    if c = '\'' then
      match escaped rest with
      | some (c2 :: rest2, body) => if c2 = '\'' then some (rest2, body) else none
      | some ([], _) => none
      | none => none
    else none
  | [] => none

/-- Type `Client` from src/client.rs: current and last session names. -/
structure Client where
  session_name : List Char
  last_session_name : List Char
deriving DecidableEq

/-- The `ParseError` produced by `Client::from_str` (desc and intent as in
src/client.rs lines 47-48). -/
def clientParseErr : Error :=
  .parseError "Client" "'##\x7bclient_session\x7d':'##\x7bclient_last_session\x7d'"

/-- Method `Client::from_str`: `all_consuming((quoted_nonempty_string, char(':'),
quoted_string))`, keeping both bodies verbatim. -/
def Client.from_str (input : List Char) : Except Error Client :=
  match quoted_nonempty_string input with
  | some (rem1, b1) =>
    match rem1 with
    | c :: rem2 =>
      if c = ':' then
        match quoted_string rem2 with
        | some (rem3, b2) =>
          if rem3.isEmpty then .ok ⟨b1, b2⟩ else .error clientParseErr
        | none => .error clientParseErr
      else .error clientParseErr
    | [] => .error clientParseErr
  | none => .error clientParseErr

/-- The input shape the client record parser accepts: a non-empty quoted
body, a literal colon, and a possibly-empty quoted body. -/
def clientShapeInput (b1 b2 : List Char) : List Char :=
  '\'' :: (b1 ++ '\'' :: ':' :: '\'' :: (b2 ++ ['\'']))

/-! ## src/client.rs: `switch_client` -/

/-- Function `switch_client` from src/client.rs, parameterised by the result of the
process invocation: `.expect(..)` panics (`none`) when the invocation
fails, and otherwise the captured output is discarded entirely — no
validator runs — and the function returns `Ok(())`. -/
def switch_client (spawn : Except Int Output) : Option (Except Error Unit) :=
  match spawn with
  | .error _ => none
  | .ok _ => some (.ok ())

/-! ### Lemmas about `rposition` -/

theorem rposition_eq_none_of_forall {α : Type} {p : α → Bool} {l : List α}
    (h : ∀ a ∈ l, p a = false) : rposition p l = none := by
  induction l with
  | nil => rfl
  | cons a as ih =>
    have ha : p a = false := h a (List.mem_cons_self a as)
    have has : rposition p as = none := ih fun x hx => h x (List.mem_cons_of_mem a hx)
    simp [rposition, has, ha]

theorem rposition_append_of_false {α : Type} {p : α → Bool} {ys : List α}
    (h : ∀ a ∈ ys, p a = false) (xs : List α) :
    rposition p (xs ++ ys) = rposition p xs := by
  induction xs with
  | nil => simpa using rposition_eq_none_of_forall h
  | cons x xs ih => simp [rposition, ih]

theorem rposition_some_lt {α : Type} {p : α → Bool} {l : List α} {i : Nat}
    (h : rposition p l = some i) : i < l.length := by
  induction l generalizing i with
  | nil => simp [rposition] at h
  | cons a as ih =>
    simp only [rposition] at h
    cases hr : rposition p as with
    | some j =>
      rw [hr] at h
      cases h
      exact Nat.succ_lt_succ (ih hr)
    | none =>
      rw [hr] at h
      by_cases hp : p a
      · simp [hp] at h
        subst h
        exact Nat.succ_pos _
      · simp [hp] at h

theorem rposition_ne_none_of_mem {α : Type} {p : α → Bool} {l : List α} {a : α}
    (hmem : a ∈ l) (hp : p a = true) : rposition p l ≠ none := by
  intro hnone
  induction l with
  | nil => cases hmem
  | cons x xs ih =>
    simp only [rposition] at hnone
    cases hr : rposition p xs with
    | some j => rw [hr] at hnone; cases hnone
    | none =>
      rw [hr] at hnone
      rcases List.mem_cons.mp hmem with h | h
      · subst h; simp [hp] at hnone
      · exact ih h hr

theorem take_append_of_le {α : Type} {n : Nat} {xs : List α} (ys : List α)
    (h : n ≤ xs.length) : (xs ++ ys).take n = xs.take n := by
  rw [List.take_append_eq_append_take, Nat.sub_eq_zero_of_le h, List.take_zero,
    List.append_nil]

/-! ### Lemmas about `trim_trailing` and `splitSep` -/

theorem trim_trailing_append_ws {l w : List Nat}
    (hw : ∀ c ∈ w, isWhitespaceByte c = true) :
    trim_trailing (l ++ w) = trim_trailing l := by
  have hfalse : ∀ c ∈ w, (!isWhitespaceByte c) = false := by
    intro c hc; simp [hw c hc]
  unfold trim_trailing
  rw [rposition_append_of_false hfalse]
  cases hr : rposition (fun c => !isWhitespaceByte c) l with
  | some i => exact take_append_of_le w (rposition_some_lt hr)
  | none => rfl

theorem splitSep_ne_nil {α : Type} [DecidableEq α] (sep : α) (l : List α) :
    splitSep sep l ≠ [] := by
  cases l with
  | nil => simp [splitSep]
  | cons c rest =>
    simp only [splitSep]
    by_cases h : c = sep
    · simp [h]
    · simp only [h, if_false]
      cases splitSep sep rest <;> simp

theorem not_mem_of_mem_splitSep {α : Type} [DecidableEq α] {sep : α} {l : List α}
    {piece : List α} (h : piece ∈ splitSep sep l) : sep ∉ piece := by
  induction l generalizing piece with
  | nil =>
    simp only [splitSep, List.mem_singleton] at h
    subst h; simp
  | cons c rest ih =>
    simp only [splitSep] at h
    by_cases hc : c = sep
    · rw [if_pos hc] at h
      rcases List.mem_cons.mp h with h | h
      · subst h; simp
      · exact ih h
    · rw [if_neg hc] at h
      cases hr : splitSep sep rest with
      | nil => exact absurd hr (splitSep_ne_nil sep rest)
      | cons l0 ls =>
        rw [hr] at h
        rcases List.mem_cons.mp h with h | h
        · subst h
          intro hmem
          rcases List.mem_cons.mp hmem with h | h
          · exact hc h.symm
          · exact ih (hr ▸ List.mem_cons_self l0 ls) h
        · exact ih (hr ▸ List.mem_cons_of_mem l0 h)

theorem splitSep_of_not_mem {α : Type} [DecidableEq α] {sep : α} {l : List α}
    (h : sep ∉ l) : splitSep sep l = [l] := by
  induction l with
  | nil => rfl
  | cons c rest ih =>
    have hc : ¬c = sep := fun hc => h (hc ▸ List.mem_cons_self c rest)
    have hrest : sep ∉ rest := fun hm => h (List.mem_cons_of_mem c hm)
    simp [splitSep, hc, ih hrest]

theorem splitSep_append_sep {α : Type} [DecidableEq α] {sep : α} {xs : List α}
    (h : sep ∉ xs) (ys : List α) :
    splitSep sep (xs ++ sep :: ys) = xs :: splitSep sep ys := by
  induction xs with
  | nil => simp [splitSep]
  | cons c rest ih =>
    have hc : ¬c = sep := fun hc => h (hc ▸ List.mem_cons_self c rest)
    have hrest : sep ∉ rest := fun hm => h (List.mem_cons_of_mem c hm)
    simp [splitSep, hc, ih hrest]

/-! ### Lemmas about `joinSep` and `joinLines` -/

theorem joinSep_cons {α : Type} (sep : α) (l : List α) {ls : List (List α)}
    (h : ls ≠ []) : joinSep sep (l :: ls) = l ++ sep :: joinSep sep ls := by
  cases ls with
  | nil => exact absurd rfl h
  | cons q qs => rfl

theorem splitSep_joinSep {α : Type} [DecidableEq α] {sep : α}
    {pieces : List (List α)} (hne : pieces ≠ [])
    (hfree : ∀ p ∈ pieces, sep ∉ p) :
    splitSep sep (joinSep sep pieces) = pieces := by
  induction pieces with
  | nil => exact absurd rfl hne
  | cons p ps ih =>
    cases ps with
    | nil =>
      show splitSep sep p = [p]
      exact splitSep_of_not_mem (hfree p (List.mem_cons_self p []))
    | cons q qs =>
      rw [joinSep_cons sep p (by simp)]
      rw [splitSep_append_sep (hfree p (List.mem_cons_self p _)) _]
      rw [ih (by simp) fun x hx => hfree x (List.mem_cons_of_mem p hx)]

theorem joinSep_concat_empty {α : Type} (sep : α) {q : List (List α)}
    (h : q ≠ []) : joinSep sep (q ++ [[]]) = joinSep sep q ++ [sep] := by
  induction q with
  | nil => exact absurd rfl h
  | cons p ps ih =>
    cases ps with
    | nil => simp [joinSep]
    | cons r rs =>
      rw [List.cons_append, joinSep_cons sep p (by simp),
        joinSep_cons sep p (by simp), ih (by simp)]
      simp

theorem joinSep_append_replicate_empty {α : Type} (sep : α) {q : List (List α)}
    (h : q ≠ []) (m : Nat) :
    joinSep sep (q ++ List.replicate m []) = joinSep sep q ++ List.replicate m sep := by
  induction m with
  | zero => simp
  | succ m ih =>
    rw [List.replicate_succ' m ([] : List α), ← List.append_assoc,
      joinSep_concat_empty sep (by simp [h]), ih,
      List.replicate_succ' m sep, ← List.append_assoc]

theorem joinLines_eq_specJoin (ls : List (List Nat)) : joinLines ls = specJoin ls := by
  induction ls with
  | nil => rfl
  | cons l ls ih =>
    cases ls with
    | nil => simp [joinLines, specJoin, joinSep]
    | cons q qs =>
      show l ++ 10 :: joinLines (q :: qs) = specJoin (l :: q :: qs)
      rw [ih]
      simp only [specJoin, List.isEmpty_cons, Bool.false_eq_true, if_false]
      rw [joinSep_cons 10 l (show q :: qs ≠ [] by simp)]
      simp

/-! ### Newline-freeness and perturbation lemmas -/

theorem ne_newline_of_isWhitespaceByte {c : Nat} (h : isWhitespaceByte c = true) :
    c ≠ 10 := by
  rcases Bool.or_eq_true_iff.mp h with h | h <;>
    · intro hc
      subst hc
      simp at h

theorem not_mem_trim_trailing {l : List Nat} (h : 10 ∉ l) :
    10 ∉ trim_trailing l := by
  unfold trim_trailing
  cases rposition (fun c => !isWhitespaceByte c) l with
  | some i => exact fun hm => h (List.take_subset _ _ hm)
  | none => simp

theorem buf_trim_no_newline (B : List Nat) :
    ∀ l ∈ buf_trim_trailing B, 10 ∉ l := by
  intro l hl
  obtain ⟨piece, hpiece, rfl⟩ := List.mem_map.mp hl
  exact not_mem_trim_trailing (not_mem_of_mem_splitSep hpiece)

theorem cleanedLines_subset (B : List Nat) :
    ∀ l ∈ cleanedLines B, l ∈ buf_trim_trailing B := by
  intro l hl
  unfold cleanedLines drop_last_empty_lines at hl
  cases hr : rposition (fun line => !line.isEmpty) (buf_trim_trailing B) with
  | some i =>
    rw [hr] at hl
    exact List.take_subset _ _ hl
  | none =>
    rw [hr] at hl
    exact hl

theorem cleanedLines_no_newline (B : List Nat) :
    ∀ l ∈ cleanedLines B, 10 ∉ l :=
  fun l hl => buf_trim_no_newline B l (cleanedLines_subset B l hl)

theorem map_trim_zipWith {ls ws : List (List Nat)} (hlen : ls.length = ws.length)
    (hws : ∀ w ∈ ws, ∀ c ∈ w, isWhitespaceByte c = true) :
    (List.zipWith (· ++ ·) ls ws).map trim_trailing = ls.map trim_trailing := by
  induction ls generalizing ws with
  | nil => simp
  | cons l ls ih =>
    cases ws with
    | nil => simp at hlen
    | cons w ws' =>
      simp only [List.zipWith_cons_cons, List.map_cons]
      rw [trim_trailing_append_ws (hws w (List.mem_cons_self w ws')),
        ih (Nat.succ_injective hlen) fun x hx => hws x (List.mem_cons_of_mem w hx)]

theorem zipWith_no_newline {ls ws : List (List Nat)}
    (hfree : ∀ l ∈ ls, 10 ∉ l)
    (hws : ∀ w ∈ ws, ∀ c ∈ w, isWhitespaceByte c = true) :
    ∀ x ∈ List.zipWith (· ++ ·) ls ws, 10 ∉ x := by
  induction ls generalizing ws with
  | nil => simp
  | cons l ls ih =>
    cases ws with
    | nil => simp
    | cons w ws' =>
      intro x hx
      rcases List.mem_cons.mp hx with h | h
      · subst h
        intro hm
        rcases List.mem_append.mp hm with h | h
        · exact hfree l (List.mem_cons_self l ls) h
        · exact ne_newline_of_isWhitespaceByte
            (hws w (List.mem_cons_self w ws') 10 h) rfl
      · exact ih (fun y hy => hfree y (List.mem_cons_of_mem l hy))
          (fun y hy => hws y (List.mem_cons_of_mem w hy)) x h

theorem splitSep_appendWs {B : List Nat} {ws : List (List Nat)} (m : Nat)
    (hlen : ws.length = (splitSep 10 B).length)
    (hws : ∀ w ∈ ws, ∀ c ∈ w, isWhitespaceByte c = true) :
    splitSep 10 (appendWsPerLine B ws m)
      = List.zipWith (· ++ ·) (splitSep 10 B) ws ++ List.replicate m [] := by
  have hZlen : (List.zipWith (· ++ ·) (splitSep 10 B) ws).length
      = (splitSep 10 B).length := by
    rw [List.length_zipWith, ← hlen, Nat.min_self]
  have hZne : List.zipWith (· ++ ·) (splitSep 10 B) ws ≠ [] := by
    intro hz
    have := splitSep_ne_nil 10 B
    rw [← List.length_pos] at this
    rw [hz] at hZlen
    simp at hZlen
    omega
  unfold appendWsPerLine
  rw [← joinSep_append_replicate_empty 10 hZne m]
  refine splitSep_joinSep (by simp [hZne]) ?_
  intro p hp
  rcases List.mem_append.mp hp with h | h
  · exact zipWith_no_newline (fun l hl => not_mem_of_mem_splitSep hl) hws p h
  · rw [List.eq_of_mem_replicate h]
    simp

theorem buf_trim_appendWs {B : List Nat} {ws : List (List Nat)} (m : Nat)
    (hlen : ws.length = (splitSep 10 B).length)
    (hws : ∀ w ∈ ws, ∀ c ∈ w, isWhitespaceByte c = true) :
    buf_trim_trailing (appendWsPerLine B ws m)
      = buf_trim_trailing B ++ List.replicate m [] := by
  unfold buf_trim_trailing
  rw [splitSep_appendWs m hlen hws, List.map_append,
    map_trim_zipWith hlen.symm hws, List.map_replicate]
  rfl

theorem drop_last_empty_append_empties {T : List (List Nat)}
    (hne : ∃ l ∈ T, l ≠ []) (m : Nat) :
    drop_last_empty_lines (T ++ List.replicate m []) = drop_last_empty_lines T := by
  have hfalse : ∀ l ∈ List.replicate m ([] : List Nat), (!l.isEmpty) = false := by
    intro l hl
    rw [List.eq_of_mem_replicate hl]
    rfl
  unfold drop_last_empty_lines
  rw [rposition_append_of_false hfalse]
  obtain ⟨l, hl, hlne⟩ := hne
  cases hr : rposition (fun line => !line.isEmpty) T with
  | some i => exact take_append_of_le _ (rposition_some_lt hr)
  | none =>
    exact absurd hr (rposition_ne_none_of_mem hl (by simp [List.isEmpty_iff, hlne]))

theorem cleanedLines_appendWs {B : List Nat} {ws : List (List Nat)} (m : Nat)
    (hlen : ws.length = (splitSep 10 B).length)
    (hws : ∀ w ∈ ws, ∀ c ∈ w, isWhitespaceByte c = true)
    (hne : ∃ l ∈ buf_trim_trailing B, l ≠ []) :
    cleanedLines (appendWsPerLine B ws m) = cleanedLines B := by
  unfold cleanedLines
  rw [buf_trim_appendWs m hlen hws, drop_last_empty_append_empties hne m]

/-! ### Structure of the joined output -/

theorem joinLines_cons (l : List Nat) {ls : List (List Nat)} (h : ls ≠ []) :
    joinLines (l :: ls) = l ++ 10 :: joinLines ls := by
  cases ls with
  | nil => exact absurd rfl h
  | cons q qs => rfl

theorem resetNl_suffix_joinLines {ls : List (List Nat)} (h : ls ≠ []) :
    resetNl <:+ joinLines ls := by
  induction ls with
  | nil => exact absurd rfl h
  | cons l ls ih =>
    cases ls with
    | nil =>
      have hj : joinLines [l] = l ++ (resetSeq ++ [10]) := by
        simp [joinLines]
      rw [hj, show resetNl = resetSeq ++ [10] from rfl]
      exact List.suffix_append _ _
    | cons q qs =>
      rw [joinLines_cons l (by simp)]
      refine (ih (by simp)).trans ?_
      rw [show l ++ 10 :: joinLines (q :: qs) = (l ++ [10]) ++ joinLines (q :: qs)
        by simp]
      exact List.suffix_append _ _

theorem joinLines_concat (ps : List (List Nat)) (last : List Nat) :
    joinLines (ps ++ [last]) = joinSep 10 (ps ++ [last ++ resetSeq]) ++ [10] := by
  induction ps with
  | nil => simp [joinLines, joinSep]
  | cons p ps ih =>
    rw [List.cons_append, joinLines_cons p (by simp), ih,
      List.cons_append, joinSep_cons 10 p (by simp)]
    simp

theorem cleanup_eq_some {B : List Nat} {k : Nat} {out : List Nat}
    (h : cleanup_captured_buffer B k = some out) :
    out = joinLines (payloadLines B k) ∧ k ≤ (cleanedLines B).length := by
  unfold cleanup_captured_buffer checkedSub at h
  by_cases hk : k ≤ (cleanedLines B).length
  · rw [if_pos hk] at h
    exact ⟨(Option.some.inj h).symm, hk⟩
  · rw [if_neg hk] at h
    cases h

/-! ## Claim theorems: pane-capture post-processor -/

/-- C1 (code bug evidence): the claim says `cleanup_captured_buffer` is total
for every `drop_n_last_lines`, but the unchecked `usize` subtraction
`buffer.len() - drop_n_last_lines` (src/utils.rs line 71) underflows — and
hence panics under overflow checks — as soon as `drop_n_last_lines` exceeds
the cleaned line count, e.g. on the buffer `b"line1"` with
`drop_n_last_lines = 2`. -/
theorem c1_cleanup_underflow_panics :
    cleanup_captured_buffer [108, 105, 110, 101, 49] 2 = none := by decide

/-- C3 counterexample: on the empty buffer the claim's own cleaned-line
computation (trim, then remove the empty-line suffix unconditionally) gives
`L = 0`, so with `k = 0` the claim predicts the first `0` cleaned lines —
the empty output — while the code emits the reset escape and a newline,
because `drop_last_empty_lines` keeps an all-empty line sequence unchanged. -/
theorem c3_counterexample :
    specCleanedLines [] = [] ∧
    cleanup_captured_buffer [] 0 = some resetNl ∧
    cleanup_captured_buffer [] 0 ≠
      some (specJoin ((specCleanedLines []).take (0 - 0))) := by decide

/-- C3 (amended): with `L` the line count after trimming and
`drop_last_empty_lines` (which keeps an entirely-empty line sequence
unchanged, per spec §4.6 step 3), for every `k ≤ L` the post-processor
yields the first `L - k` cleaned lines rejoined with `\n` and the ANSI
reset appended after the last line's content. -/
theorem c3_capture_truncation_bound (B : List Nat) (k : Nat)
    (h : k ≤ (cleanedLines B).length) :
    cleanup_captured_buffer B k = some (specJoin (payloadLines B k)) := by
  unfold cleanup_captured_buffer checkedSub
  rw [if_pos h]
  show some (joinLines (List.take ((cleanedLines B).length - k) (cleanedLines B))) =
    some (specJoin (payloadLines B k))
  rw [joinLines_eq_specJoin]
  rfl

/-- C3 witness: the amended theorem applied to scenario 7 of the spec
(`b"a\nb\nc\nd\n"` with `k = 2`). -/
theorem c3_witness :
    2 ≤ (cleanedLines [97, 10, 98, 10, 99, 10, 100, 10]).length ∧
    cleanup_captured_buffer [97, 10, 98, 10, 99, 10, 100, 10] 2 =
      some (specJoin (payloadLines [97, 10, 98, 10, 99, 10, 100, 10] 2)) :=
  ⟨by decide, c3_capture_truncation_bound [97, 10, 98, 10, 99, 10, 100, 10] 2 (by decide)⟩

/-- C4 counterexample: for the empty buffer, appending one trailing newline
(a perturbation the claim allows: `ws = [[]]`, one extra `\n`) changes the
output, because the all-empty line sequence is kept unchanged instead of
being dropped. -/
theorem c4_counterexample :
    appendWsPerLine [] [[]] 1 = [10] ∧
    ([[]] : List (List Nat)).length = (splitSep 10 ([] : List Nat)).length ∧
    cleanup_captured_buffer [10] 0 ≠ cleanup_captured_buffer [] 0 := by decide

/-- C4 (amended): for any buffer `B` having at least one line that is
non-empty after trimming, appending spaces or tabs to the end of any of its
lines and/or appending extra trailing newlines leaves the post-processor
output unchanged, for every drop count. -/
theorem c4_capture_ws_idempotence (B : List Nat) (ws : List (List Nat)) (m k : Nat)
    (hlen : ws.length = (splitSep 10 B).length)
    (hws : ∀ w ∈ ws, ∀ c ∈ w, isWhitespaceByte c = true)
    (hne : ∃ l ∈ buf_trim_trailing B, l ≠ []) :
    cleanup_captured_buffer (appendWsPerLine B ws m) k = cleanup_captured_buffer B k := by
  unfold cleanup_captured_buffer
  rw [cleanedLines_appendWs m hlen hws hne]

/-- C4 witness: the amended theorem applied to `B = b"a"`, one trailing
space on its single line and one extra newline. -/
theorem c4_witness :
    cleanup_captured_buffer (appendWsPerLine [97] [[32]] 1) 0 =
      cleanup_captured_buffer [97] 0 :=
  c4_capture_ws_idempotence [97] [[32]] 1 0 (by decide) (by decide)
    ⟨[97], by decide, by decide⟩

/-- C5 counterexample: when the captured content itself contains the reset
escape at the end of a non-final line (input `ESC [ 0 m \n x`), the byte
sequence `ESC [ 0 m` also sits at the first line end of the output, so it
does not appear only at the final line end as claimed. -/
theorem c5_counterexample :
    cleanup_captured_buffer [27, 91, 48, 109, 10, 120] 0 =
      some [27, 91, 48, 109, 10, 120, 27, 91, 48, 109, 10] ∧
    ((splitSep 10 [27, 91, 48, 109, 10, 120, 27, 91, 48, 109, 10]).dropLast).dropLast
      = [[27, 91, 48, 109]] ∧
    resetSeq <:+ [27, 91, 48, 109] := by
  refine ⟨by decide, by decide, ⟨[], rfl⟩⟩

/-- C5 (amended): a non-empty post-processor output always ends with
`ESC [ 0 m \n`; moreover the processor appends the reset only to the final
line, so provided no non-final payload line itself already ends with the
reset sequence, no other line end of the output carries it. -/
theorem c5_capture_last_line_reset (B : List Nat) (k : Nat) (out : List Nat)
    (hout : cleanup_captured_buffer B k = some out) (hne : out ≠ []) :
    resetNl <:+ out ∧
    ((∀ l ∈ (payloadLines B k).dropLast, ¬ resetSeq <:+ l) →
      ∀ l ∈ ((splitSep 10 out).dropLast).dropLast, ¬ resetSeq <:+ l) := by
  obtain ⟨hjoin, _⟩ := cleanup_eq_some hout
  have hPne : payloadLines B k ≠ [] := by
    intro hP
    rw [hP] at hjoin
    exact hne (by simpa [joinLines] using hjoin)
  refine ⟨by rw [hjoin]; exact resetNl_suffix_joinLines hPne, ?_⟩
  intro hnoreset
  obtain hnil | ⟨ps, last, hP⟩ := List.eq_nil_or_concat' (payloadLines B k)
  · exact absurd hnil hPne
  have hfreeP : ∀ l ∈ payloadLines B k, 10 ∉ l := by
    intro l hl
    exact cleanedLines_no_newline B l (List.take_subset _ _ hl)
  have hsplit : splitSep 10 out = (ps ++ [last ++ resetSeq]) ++ [[]] := by
    rw [hjoin, hP, joinLines_concat, ← joinSep_concat_empty 10 (by simp)]
    refine splitSep_joinSep (by simp) ?_
    intro p hp
    rcases List.mem_append.mp hp with hp | hp
    · rcases List.mem_append.mp hp with hp | hp
      · exact hfreeP p (hP ▸ List.mem_append_left _ hp)
      · rw [List.mem_singleton.mp hp]
        intro hm
        rcases List.mem_append.mp hm with hm | hm
        · exact hfreeP last (hP ▸ List.mem_append_right _ (List.mem_singleton.mpr rfl)) hm
        · simp [resetSeq] at hm
    · rw [List.mem_singleton.mp hp]
      simp
  rw [hsplit, List.dropLast_concat, List.dropLast_concat]
  intro l hl
  exact hnoreset l (by rw [hP, List.dropLast_concat]; exact hl)

/-- C5 witness: the amended theorem applied to the two-line capture
`b"hi \nyo"`. -/
theorem c5_witness :
    resetNl <:+ [104, 105, 10, 121, 111, 27, 91, 48, 109, 10] ∧
    ((∀ l ∈ (payloadLines [104, 105, 32, 10, 121, 111] 0).dropLast, ¬ resetSeq <:+ l) →
      ∀ l ∈ ((splitSep 10 [104, 105, 10, 121, 111, 27, 91, 48, 109, 10]).dropLast).dropLast,
        ¬ resetSeq <:+ l) :=
  c5_capture_last_line_reset [104, 105, 32, 10, 121, 111] 0
    [104, 105, 10, 121, 111, 27, 91, 48, 109, 10] (by decide) (by decide)

/-! ## Claim theorems: validators, IDs, options, switch-client -/

/-- C2 counterexample: on exit status 1 with empty stdout and stderr the
claim ("succeeds iff status is zero AND both streams are empty") predicts
failure, but the validator succeeds — it never inspects the status. -/
theorem c2_counterexample :
    check_empty_process_output ⟨1, [], []⟩ "kill-session" = .ok () ∧
    (1 : Int) ≠ 0 := by decide

/-- C2 (amended): `check_empty_process_output` succeeds iff both stdout and
stderr are empty, regardless of the exit status; on failure it returns
`UnexpectedTmuxOutput` carrying the intent and both streams decoded as
lossy UTF-8. -/
theorem c2_require_empty (output : Output) (intent : String) :
    (check_empty_process_output output intent = .ok () ↔
      output.stdout = [] ∧ output.stderr = []) ∧
    (output.stdout ≠ [] ∨ output.stderr ≠ [] →
      check_empty_process_output output intent =
        .error (.unexpectedTmuxOutput intent (fromUtf8Lossy output.stdout)
          (fromUtf8Lossy output.stderr))) := by
  by_cases h1 : output.stdout = [] <;> by_cases h2 : output.stderr = [] <;>
    simp [check_empty_process_output, h1, h2, List.isEmpty_iff]

/-- C2 witness: the amended theorem applied to a zero-status output with
stdout `b"hi"`. -/
theorem c2_witness :
    check_empty_process_output ⟨0, [104, 105], []⟩ "new-session" =
      .error (.unexpectedTmuxOutput "new-session" (fromUtf8Lossy [104, 105])
        (fromUtf8Lossy [])) :=
  (c2_require_empty ⟨0, [104, 105], []⟩ "new-session").2 (Or.inl (by decide))

/-! ### ID round-trip lemmas -/

theorem decChar_isDigit {d : Nat} (h : d < 10) : (decChar d).isDigit = true := by
  interval_cases d <;> decide

theorem decimalAux_all_digits (fuel : Nat) :
    ∀ n, ∀ c ∈ decimalAux fuel n, c.isDigit = true := by
  induction fuel with
  | zero =>
    intro n c hc
    simp [decimalAux] at hc
  | succ fuel ih =>
    intro n c hc
    unfold decimalAux at hc
    by_cases h : n < 10
    · rw [if_pos h] at hc
      rw [List.mem_singleton.mp hc]
      exact decChar_isDigit h
    · rw [if_neg h] at hc
      rcases List.mem_append.mp hc with hc | hc
      · exact ih (n / 10) c hc
      · rw [List.mem_singleton.mp hc]
        exact decChar_isDigit (Nat.mod_lt n (by omega))

theorem decimal_all_digits (n : Nat) : ∀ c ∈ decimal n, c.isDigit = true :=
  decimalAux_all_digits (n + 1) n

theorem decimal_ne_nil (n : Nat) : decimal n ≠ [] := by
  unfold decimal decimalAux
  by_cases h : n < 10
  · rw [if_pos h]
    simp
  · rw [if_neg h]
    simp

theorem takeWhile_eq_self_of {α : Type} {p : α → Bool} {l : List α}
    (h : ∀ a ∈ l, p a = true) : l.takeWhile p = l := by
  induction l with
  | nil => rfl
  | cons a as ih =>
    rw [List.takeWhile_cons, h a (List.mem_cons_self a as),
      ih fun x hx => h x (List.mem_cons_of_mem a hx)]
    simp

theorem dropWhile_eq_nil_of {α : Type} {p : α → Bool} {l : List α}
    (h : ∀ a ∈ l, p a = true) : l.dropWhile p = [] := by
  induction l with
  | nil => rfl
  | cons a as ih =>
    rw [List.dropWhile_cons, h a (List.mem_cons_self a as)]
    exact ih fun x hx => h x (List.mem_cons_of_mem a hx)

theorem digit1_all {s : List Char} (hne : s ≠ [])
    (hd : ∀ c ∈ s, c.isDigit = true) : digit1 s = some ([], s) := by
  unfold digit1
  rw [takeWhile_eq_self_of hd, dropWhile_eq_nil_of hd]
  simp [List.isEmpty_iff, hne]

/-- C6: for every `n ≤ 99999`, parsing `$<n>` with `SessionId::from_str`,
`@<n>` with `WindowId::from_str` and `%<n>` with the pane-ID constructor
succeeds, and the textual form (`as_str`) of the resulting ID equals the
input verbatim. -/
theorem c6_id_roundtrip (n : Nat) (_hn : n ≤ 99999) :
    (SessionId.from_str ('$' :: decimal n)).map SessionId.as_str =
      .ok ('$' :: decimal n) ∧
    (WindowId.from_str ('@' :: decimal n)).map WindowId.as_str =
      .ok ('@' :: decimal n) ∧
    (PaneId.from_str ('%' :: decimal n)).map PaneId.as_str =
      .ok ('%' :: decimal n) := by
  have h1 := digit1_all (decimal_ne_nil n) (decimal_all_digits n)
  refine ⟨?_, ?_, ?_⟩
  · simp [SessionId.from_str, session_id_parse, h1, SessionId.as_str, Except.map]
  · simp [WindowId.from_str, window_id_parse, h1, WindowId.as_str, Except.map]
  · simp [PaneId.from_str, pane_id_parse, h1, PaneId.as_str, Except.map]

/-- C6 witness: the round-trip theorem applied at `n = 0`. -/
theorem c6_witness :
    0 ≤ 99999 ∧
    ((SessionId.from_str ('$' :: decimal 0)).map SessionId.as_str =
        .ok ('$' :: decimal 0) ∧
      (WindowId.from_str ('@' :: decimal 0)).map WindowId.as_str =
        .ok ('@' :: decimal 0) ∧
      (PaneId.from_str ('%' :: decimal 0)).map PaneId.as_str =
        .ok ('%' :: decimal 0)) :=
  ⟨by decide, c6_id_roundtrip 0 (by decide)⟩

/-- C8: `default_command` fails with `TmuxConfig("no default-shell")` iff
the options map lacks `default-shell`; when the shell is present it is
prefixed with `-l ` if it ends with `bash`, and the `default-command`
entry, when present, is preferred over the derived shell. -/
theorem c8_default_command (opts : String → Option String) :
    (default_command opts = .error (.tmuxConfig "no default-shell") ↔
      opts "default-shell" = none) ∧
    (∀ sh, opts "default-shell" = some sh →
      default_command opts =
        .ok ((opts "default-command").getD
          (if strEndsWith sh "bash" then "-l " ++ sh else sh))) := by
  constructor
  · constructor
    · intro h
      cases hs : opts "default-shell" with
      | none => rfl
      | some cmd =>
        simp only [default_command] at h
        rw [hs] at h
        cases hc : opts "default-command" with
        | some c =>
          rw [hc] at h
          simp at h
        | none =>
          rw [hc] at h
          simp at h
    · intro h
      simp only [default_command]
      rw [h]
  · intro sh hs
    simp only [default_command]
    rw [hs]
    cases hc : opts "default-command" <;> simp [hc]

/-- C8 witness: the theorem applied to a map holding only
`default-shell = /bin/bash`. -/
theorem c8_witness :
    default_command
        (fun k => if k = "default-shell" then some "/bin/bash" else none) =
      .ok (((fun k => if k = "default-shell" then some "/bin/bash" else none)
          "default-command").getD
        (if strEndsWith "/bin/bash" "bash" then "-l " ++ "/bin/bash"
          else "/bin/bash")) :=
  (c8_default_command _).2 "/bin/bash" (by decide)

/-! ### `show_options` panic lemmas -/

theorem findIdxOfSpace_eq_none {l : List Char} (h : ∀ c ∈ l, c ≠ ' ') :
    findIdxOfSpace l = none := by
  induction l with
  | nil => rfl
  | cons c rest ih =>
    unfold findIdxOfSpace
    rw [if_neg (h c (List.mem_cons_self c rest)),
      ih fun x hx => h x (List.mem_cons_of_mem c hx)]
    rfl

theorem collectOptionList_eq_none {α β : Type} {f : α → Option β} {l : List α}
    {a : α} (ha : a ∈ l) (hf : f a = none) : collectOptionList f l = none := by
  induction l with
  | nil => cases ha
  | cons x xs ih =>
    unfold collectOptionList
    rcases List.mem_cons.mp ha with h | h
    · subst h
      rw [hf]
    · cases hx : f x with
      | none => rfl
      | some b => rw [ih h]

/-- C9: whenever the (end-trimmed) stdout of `show-options` contains a line
with no space character — in particular for empty stdout, whose split is
the single empty line — the parsing stage of `show_options` panics (the
`unwrap` on `find(' ')`, modelled by `none`) instead of returning a typed
error. -/
theorem c9_show_options_panics (stdout : List Char)
    (h : ∃ l ∈ splitSep '\n' (trimEnd stdout), ∀ c ∈ l, c ≠ ' ') :
    show_options_parse stdout = none := by
  obtain ⟨l, hl, hnospace⟩ := h
  have hline : parseOptionLine l = none := by
    unfold parseOptionLine
    rw [findIdxOfSpace_eq_none hnospace]
  unfold show_options_parse
  rw [collectOptionList_eq_none hl hline]

/-- C9 witness: the theorem applied to empty stdout. -/
theorem c9_witness : show_options_parse [] = none :=
  c9_show_options_panics [] ⟨[], by decide, by decide⟩

/-! ### Client grammar lemmas -/

theorem validBody_quote (t : List Char) : validBody ('\'' :: t) = false := by
  rw [validBody.eq_def]
  simp

theorem validBody_esc (c2 : Char) (rest2 : List Char) :
    validBody ('\\' :: c2 :: rest2) =
      if c2 = '\'' then validBody rest2 else false := by
  rw [validBody.eq_def]
  simp

theorem validBody_single_esc : validBody ['\\'] = false := by
  rw [validBody.eq_def]
  simp

theorem validBody_other {c : Char} (hc1 : c ≠ '\\') (hc3 : c ≠ '\'')
    (rest : List Char) : validBody (c :: rest) = validBody rest := by
  rw [validBody.eq_def]
  simp [hc1, hc3]

theorem escLoop_quote (t : List Char) :
    escLoop ('\'' :: t) = some ([], '\'' :: t) := by
  rw [escLoop.eq_def]
  simp

theorem escLoop_esc (c2 : Char) (rest2 : List Char) :
    escLoop ('\\' :: c2 :: rest2) =
      if c2 = '\'' then
        match escLoop rest2 with
        | some (cs, rem) => some ('\\' :: '\'' :: cs, rem)
        | none => none
      else none := by
  rw [escLoop.eq_def]
  simp

theorem escLoop_single_esc : escLoop ['\\'] = none := by
  rw [escLoop.eq_def]
  simp

theorem escLoop_other {c : Char} (hc1 : c ≠ '\\') (hc3 : c ≠ '\'')
    (rest : List Char) :
    escLoop (c :: rest) =
      match escLoop rest with
      | some (cs, rem) => some (c :: cs, rem)
      | none => none := by
  rw [escLoop.eq_def]
  simp [hc1, hc3]

theorem escLoop_stop {b : List Char} (hb : validBody b = true) (t : List Char) :
    escLoop (b ++ '\'' :: t) = some (b, '\'' :: t) := by
  have H : ∀ n (b : List Char), b.length ≤ n → validBody b = true →
      escLoop (b ++ '\'' :: t) = some (b, '\'' :: t) := by
    intro n
    induction n with
    | zero =>
      intro b hlen _
      have hbnil : b = [] := List.eq_nil_of_length_eq_zero (Nat.le_zero.mp hlen)
      subst hbnil
      rw [List.nil_append]
      exact escLoop_quote t
    | succ n ih =>
      intro b hlen hb
      cases b with
      | nil =>
        rw [List.nil_append]
        exact escLoop_quote t
      | cons c rest =>
        by_cases hc1 : c = '\\'
        · subst hc1
          cases rest with
          | nil =>
            rw [validBody_single_esc] at hb
            exact absurd hb (by decide)
          | cons c2 rest2 =>
            rw [validBody_esc] at hb
            by_cases hc2 : c2 = '\''
            · subst hc2
              rw [if_pos rfl] at hb
              have hrec := ih rest2 (by simp at hlen ⊢; omega) hb
              show escLoop ('\\' :: '\'' :: (rest2 ++ '\'' :: t)) = _
              rw [escLoop_esc, if_pos rfl, hrec]
            · rw [if_neg hc2] at hb
              exact absurd hb (by decide)
        · by_cases hc3 : c = '\''
          · subst hc3
            rw [validBody_quote] at hb
            exact absurd hb (by decide)
          · rw [validBody_other hc1 hc3] at hb
            have hrec := ih rest (by simp at hlen ⊢; omega) hb
            show escLoop (c :: (rest ++ '\'' :: t)) = _
            rw [escLoop_other hc1 hc3, hrec]
  exact H b.length b (Nat.le_refl _) hb

theorem escLoop_sound {input cs rem : List Char}
    (h : escLoop input = some (cs, rem)) :
    validBody cs = true ∧ input = cs ++ rem ∧ (rem = [] ∨ ∃ t, rem = '\'' :: t) := by
  have H : ∀ n (input : List Char), input.length ≤ n → ∀ cs rem,
      escLoop input = some (cs, rem) →
      validBody cs = true ∧ input = cs ++ rem ∧
        (rem = [] ∨ ∃ t, rem = '\'' :: t) := by
    intro n
    induction n with
    | zero =>
      intro input hlen cs rem h
      have hnil : input = [] := List.eq_nil_of_length_eq_zero (Nat.le_zero.mp hlen)
      subst hnil
      have h' : (some ([], []) : Option (List Char × List Char)) = some (cs, rem) := h
      simp only [Option.some.injEq, Prod.mk.injEq] at h'
      obtain ⟨h1, h2⟩ := h'
      subst h1
      subst h2
      exact ⟨rfl, rfl, Or.inl rfl⟩
    | succ n ih =>
      intro input hlen cs rem h
      cases input with
      | nil =>
        have h' : (some ([], []) : Option (List Char × List Char)) = some (cs, rem) := h
        simp only [Option.some.injEq, Prod.mk.injEq] at h'
        obtain ⟨h1, h2⟩ := h'
        subst h1
        subst h2
        exact ⟨rfl, rfl, Or.inl rfl⟩
      | cons c rest =>
        by_cases hc1 : c = '\\'
        · subst hc1
          cases rest with
          | nil =>
            rw [escLoop_single_esc] at h
            cases h
          | cons c2 rest2 =>
            rw [escLoop_esc] at h
            by_cases hc2 : c2 = '\''
            · subst hc2
              rw [if_pos rfl] at h
              cases he : escLoop rest2 with
              | none =>
                rw [he] at h
                cases h
              | some p =>
                obtain ⟨cs', rem'⟩ := p
                rw [he] at h
                simp only [Option.some.injEq, Prod.mk.injEq] at h
                obtain ⟨hcs, hrem⟩ := h
                subst hcs
                subst hrem
                obtain ⟨hv, heq, hr⟩ := ih rest2 (by simp at hlen ⊢; omega) cs' rem' he
                refine ⟨?_, by simp [heq], hr⟩
                rw [validBody_esc, if_pos rfl]
                exact hv
            · rw [if_neg hc2] at h
              cases h
        · by_cases hc3 : c = '\''
          · subst hc3
            rw [escLoop_quote] at h
            simp only [Option.some.injEq, Prod.mk.injEq] at h
            obtain ⟨hcs, hrem⟩ := h
            subst hcs
            subst hrem
            exact ⟨rfl, rfl, Or.inr ⟨rest, rfl⟩⟩
          · rw [escLoop_other hc1 hc3] at h
            cases he : escLoop rest with
            | none =>
              rw [he] at h
              cases h
            | some p =>
              obtain ⟨cs', rem'⟩ := p
              rw [he] at h
              simp only [Option.some.injEq, Prod.mk.injEq] at h
              obtain ⟨hcs, hrem⟩ := h
              subst hcs
              subst hrem
              obtain ⟨hv, heq, hr⟩ := ih rest (by simp at hlen ⊢; omega) cs' rem' he
              refine ⟨?_, by simp [heq], hr⟩
              rw [validBody_other hc1 hc3]
              exact hv
  exact H input.length input (Nat.le_refl _) cs rem h

theorem escaped_stop {b : List Char} (hb : validBody b = true) (hbne : b ≠ [])
    (t : List Char) : escaped (b ++ '\'' :: t) = some ('\'' :: t, b) := by
  unfold escaped
  rw [escLoop_stop hb t]
  simp [List.isEmpty_iff, hbne]

theorem escaped_on_quote (t : List Char) : escaped ('\'' :: t) = none := by
  unfold escaped
  rw [escLoop_quote t]
  simp

theorem escaped_sound {input rem body : List Char}
    (h : escaped input = some (rem, body)) :
    validBody body = true ∧ input = body ++ rem ∧
      (rem = [] ∨ ∃ t, rem = '\'' :: t) ∧ ¬(body = [] ∧ rem ≠ []) := by
  unfold escaped at h
  cases he : escLoop input with
  | none =>
    rw [he] at h
    cases h
  | some p =>
    obtain ⟨cs, rem'⟩ := p
    rw [he] at h
    have h' : (if (cs.isEmpty && !rem'.isEmpty) = true then none
        else some (rem', cs)) = some (rem, body) := h
    by_cases hcond : (cs.isEmpty && !rem'.isEmpty) = true
    · rw [if_pos hcond] at h'
      cases h'
    · rw [if_neg hcond] at h'
      simp only [Option.some.injEq, Prod.mk.injEq] at h'
      obtain ⟨h1, h2⟩ := h'
      subst h1
      subst h2
      obtain ⟨hv, heq, hr⟩ := escLoop_sound he
      refine ⟨hv, heq, hr, ?_⟩
      intro ⟨hb, hrne⟩
      exact hcond (by simp [List.isEmpty_iff, hb, hrne])

theorem quoted_nonempty_ok {b : List Char} (hb : validBody b = true)
    (hbne : b ≠ []) (t : List Char) :
    quoted_nonempty_string ('\'' :: (b ++ '\'' :: t)) = some (t, b) := by
  have h1 : quoted_nonempty_string ('\'' :: (b ++ '\'' :: t)) =
      (if ('\'' : Char) = '\'' then
        match escaped (b ++ '\'' :: t) with
        | some (c2 :: rest2, body) => if c2 = '\'' then some (rest2, body) else none
        | some ([], _) => none
        | none => none
      else none) := rfl
  rw [h1, if_pos rfl, escaped_stop hb hbne t]
  rfl

theorem quoted_ok {b : List Char} (hb : validBody b = true) (t : List Char) :
    quoted_string ('\'' :: (b ++ '\'' :: t)) = some (t, b) := by
  have h1 : quoted_string ('\'' :: (b ++ '\'' :: t)) =
      (if ('\'' : Char) = '\'' then
        match escOrEmpty (b ++ '\'' :: t) with
        | (c2 :: rest2, body) => if c2 = '\'' then some (rest2, body) else none
        | ([], _) => none
      else none) := rfl
  rw [h1, if_pos rfl]
  by_cases hbne : b = []
  · subst hbne
    have h2 : escOrEmpty ([] ++ '\'' :: t) = ('\'' :: t, []) := by
      unfold escOrEmpty
      rw [List.nil_append, escaped_on_quote t]
    rw [h2]
    rfl
  · have h2 : escOrEmpty (b ++ '\'' :: t) = ('\'' :: t, b) := by
      unfold escOrEmpty
      rw [escaped_stop hb hbne t]
    rw [h2]
    rfl

theorem quoted_nonempty_inv {input t b : List Char}
    (h : quoted_nonempty_string input = some (t, b)) :
    validBody b = true ∧ b ≠ [] ∧ input = '\'' :: (b ++ '\'' :: t) := by
  cases input with
  | nil => cases h
  | cons c rest =>
    have h' : (if c = '\'' then
        match escaped rest with
        | some (c2 :: rest2, body) => if c2 = '\'' then some (rest2, body) else none
        | some ([], _) => none
        | none => none
      else none) = some (t, b) := h
    by_cases hc : c = '\''
    · subst hc
      rw [if_pos rfl] at h'
      cases he : escaped rest with
      | none =>
        rw [he] at h'
        cases h'
      | some p =>
        obtain ⟨rem, body⟩ := p
        rw [he] at h'
        cases rem with
        | nil => cases h'
        | cons c2 rest2 =>
          have h2 : (if c2 = '\'' then some (rest2, body) else none) =
              some (t, b) := h'
          by_cases hc2 : c2 = '\''
          · subst hc2
            rw [if_pos rfl] at h2
            simp only [Option.some.injEq, Prod.mk.injEq] at h2
            obtain ⟨h3, h4⟩ := h2
            subst h3
            subst h4
            obtain ⟨hv, heq, _, hne⟩ := escaped_sound he
            refine ⟨hv, ?_, by rw [heq]⟩
            intro hbnil
            exact hne ⟨hbnil, by simp⟩
          · rw [if_neg hc2] at h2
            cases h2
    · rw [if_neg hc] at h'
      cases h'

theorem quoted_inv {input t b : List Char}
    (h : quoted_string input = some (t, b)) :
    validBody b = true ∧ input = '\'' :: (b ++ '\'' :: t) := by
  cases input with
  | nil => cases h
  | cons c rest =>
    have h' : (if c = '\'' then
        match escOrEmpty rest with
        | (c2 :: rest2, body) => if c2 = '\'' then some (rest2, body) else none
        | ([], _) => none
      else none) = some (t, b) := h
    by_cases hc : c = '\''
    · subst hc
      rw [if_pos rfl] at h'
      cases he : escaped rest with
      | none =>
        rw [show escOrEmpty rest = (rest, []) by unfold escOrEmpty; rw [he]] at h'
        cases hrest : rest with
        | nil =>
          rw [hrest] at h'
          cases h'
        | cons c2 rest2 =>
          rw [hrest] at h'
          have h2 : (if c2 = '\'' then some (rest2, ([] : List Char)) else none) =
              some (t, b) := h'
          by_cases hc2 : c2 = '\''
          · subst hc2
            rw [if_pos rfl] at h2
            simp only [Option.some.injEq, Prod.mk.injEq] at h2
            obtain ⟨h3, h4⟩ := h2
            subst h3
            subst h4
            exact ⟨rfl, rfl⟩
          · rw [if_neg hc2] at h2
            cases h2
      | some p =>
        obtain ⟨rem, body⟩ := p
        rw [show escOrEmpty rest = (rem, body) by unfold escOrEmpty; rw [he]] at h'
        cases rem with
        | nil => cases h'
        | cons c2 rest2 =>
          have h2 : (if c2 = '\'' then some (rest2, body) else none) =
              some (t, b) := h'
          by_cases hc2 : c2 = '\''
          · subst hc2
            rw [if_pos rfl] at h2
            simp only [Option.some.injEq, Prod.mk.injEq] at h2
            obtain ⟨h3, h4⟩ := h2
            subst h3
            subst h4
            obtain ⟨hv, heq, _, _⟩ := escaped_sound he
            exact ⟨hv, by rw [heq]⟩
          · rw [if_neg hc2] at h2
            cases h2
    · rw [if_neg hc] at h'
      cases h'
/-- C7: `Client::from_str` succeeds exactly on inputs of the shape
`'<current>':'<last>'` — a non-empty single-quoted body, a literal colon,
and a possibly-empty single-quoted body, with nothing after the record —
returning the two bodies verbatim; on every other input it returns the
`ParseError` with desc `Client` and the client-format intent. -/
theorem c7_client_grammar (input : List Char) :
    (∀ b1 b2, validBody b1 = true → b1 ≠ [] → validBody b2 = true →
      input = clientShapeInput b1 b2 →
      Client.from_str input = .ok ⟨b1, b2⟩) ∧
    (∀ c, Client.from_str input = .ok c →
      validBody c.session_name = true ∧ c.session_name ≠ [] ∧
      validBody c.last_session_name = true ∧
      input = clientShapeInput c.session_name c.last_session_name) ∧
    (∀ e, Client.from_str input = .error e → e = clientParseErr) := by
  refine ⟨?_, ?_, ?_⟩
  · intro b1 b2 h1 hne h2 hin
    subst hin
    have hq := quoted_nonempty_ok h1 hne (':' :: '\'' :: (b2 ++ ['\'']))
    have hq2 := quoted_ok h2 ([] : List Char)
    simp only [clientShapeInput, Client.from_str, hq, hq2, List.isEmpty_nil,
      if_true]
  · intro c h
    unfold Client.from_str at h
    cases hq : quoted_nonempty_string input with
    | none =>
      rw [hq] at h
      cases h
    | some p =>
      obtain ⟨rem1, b1⟩ := p
      rw [hq] at h
      cases rem1 with
      | nil => cases h
      | cons c1 rem2 =>
        have h' : (if c1 = ':' then
            match quoted_string rem2 with
            | some (rem3, b2) =>
              if rem3.isEmpty then Except.ok (Client.mk b1 b2)
              else Except.error clientParseErr
            | none => Except.error clientParseErr
          else Except.error clientParseErr) = Except.ok c := h
        by_cases hc1 : c1 = ':'
        · subst hc1
          rw [if_pos rfl] at h'
          cases hq2 : quoted_string rem2 with
          | none =>
            rw [hq2] at h'
            cases h'
          | some p2 =>
            obtain ⟨rem3, b2⟩ := p2
            rw [hq2] at h'
            have h2 : (if rem3.isEmpty then Except.ok (Client.mk b1 b2)
                else Except.error clientParseErr) = Except.ok c := h'
            by_cases hr3 : rem3.isEmpty
            · rw [if_pos hr3] at h2
              have hc : c = ⟨b1, b2⟩ := (Except.ok.inj h2).symm
              subst hc
              obtain ⟨hv1, hne1, hin1⟩ := quoted_nonempty_inv hq
              obtain ⟨hv2, hin2⟩ := quoted_inv hq2
              have hrem3 : rem3 = [] := List.isEmpty_iff.mp hr3
              subst hrem3
              refine ⟨hv1, hne1, hv2, ?_⟩
              rw [hin1, hin2]
              rfl
            · rw [if_neg hr3] at h2
              cases h2
        · rw [if_neg hc1] at h'
          cases h'
  · intro e h
    unfold Client.from_str at h
    cases hq : quoted_nonempty_string input with
    | none =>
      rw [hq] at h
      injection h with h1
      exact h1.symm
    | some p =>
      obtain ⟨rem1, b1⟩ := p
      rw [hq] at h
      cases rem1 with
      | nil =>
        injection h with h1
        exact h1.symm
      | cons c1 rem2 =>
        have h' : (if c1 = ':' then
            match quoted_string rem2 with
            | some (rem3, b2) =>
              if rem3.isEmpty then Except.ok (Client.mk b1 b2)
              else Except.error clientParseErr
            | none => Except.error clientParseErr
          else Except.error clientParseErr) = Except.error e := h
        by_cases hc1 : c1 = ':'
        · subst hc1
          rw [if_pos rfl] at h'
          cases hq2 : quoted_string rem2 with
          | none =>
            rw [hq2] at h'
            injection h' with h1
            exact h1.symm
          | some p2 =>
            obtain ⟨rem3, b2⟩ := p2
            rw [hq2] at h'
            have h2 : (if rem3.isEmpty then Except.ok (Client.mk b1 b2)
                else Except.error clientParseErr) = Except.error e := h'
            by_cases hr3 : rem3.isEmpty
            · rw [if_pos hr3] at h2
              cases h2
            · rw [if_neg hr3] at h2
              injection h2 with h1
              exact h1.symm
        · rw [if_neg hc1] at h'
          injection h' with h1
          exact h1.symm

/-- C7 witness: the success direction applied to `'a':'b'`, plus the spec
scenario rejections. -/
theorem c7_witness :
    Client.from_str ['\'', 'a', '\'', ':', '\'', 'b', '\''] = .ok ⟨['a'], ['b']⟩ :=
  (c7_client_grammar ['\'', 'a', '\'', ':', '\'', 'b', '\'']).1 ['a'] ['b']
    (by decide) (by decide) (by decide) (by decide)

/-- C10: whenever the tmux invocation completes, `switch_client` returns
`Ok(())` regardless of exit status, stdout or stderr (no validator runs);
when the invocation itself fails it panics (`expect`, modelled by `none`)
instead of returning an `Io` error; it never returns an `Err` value. -/
theorem c10_switch_client (spawn : Except Int Output) :
    (∀ out, spawn = .ok out → switch_client spawn = some (.ok ())) ∧
    (∀ e, spawn = .error e → switch_client spawn = none) ∧
    (∀ res, switch_client spawn = some res → res = .ok ()) := by
  refine ⟨?_, ?_, ?_⟩
  · intro out h
    subst h
    rfl
  · intro e h
    subst h
    rfl
  · intro res h
    cases spawn with
    | ok o => exact (Option.some.inj h).symm
    | error e => cases h

/-- C10 witness: the theorem applied to a completed invocation with
non-zero status and non-empty streams — still `Ok(())`. -/
theorem c10_witness : switch_client (.ok ⟨1, [104], [101]⟩) = some (.ok ()) :=
  (c10_switch_client (.ok ⟨1, [104], [101]⟩)).1 ⟨1, [104], [101]⟩ rfl

end TmuxLib

/-!
Test vectors: the embedding evaluated on the concrete scenarios of the
repository's unit tests and of the spec (section 8), checked by `decide`.
-/
theorem sanity_vector_01 : TmuxLib.cleanup_captured_buffer
    [108, 105, 110, 101, 49, 32, 32, 10, 108, 105, 110, 101, 50, 10] 0 =
    some [108, 105, 110, 101, 49, 10, 108, 105, 110, 101, 50, 27, 91, 48, 109, 10] := by
  decide

theorem sanity_vector_02 : TmuxLib.cleanup_captured_buffer [108, 105, 110, 101, 49] 2 = none := by decide

theorem sanity_vector_03 : TmuxLib.cleanup_captured_buffer [] 0 = some [27, 91, 48, 109, 10] := by decide

theorem sanity_vector_04 : TmuxLib.cleanup_captured_buffer [10] 0 = some [10, 27, 91, 48, 109, 10] := by decide

theorem sanity_vector_05 : TmuxLib.cleanup_captured_buffer [97, 10, 98, 10, 99, 10, 100, 10] 2 =
    some [97, 10, 98, 27, 91, 48, 109, 10] := by decide

theorem sanity_vector_06 : TmuxLib.check_empty_process_output ⟨1, [], []⟩ "x" = .ok () := by decide
theorem sanity_vector_07 : TmuxLib.check_empty_process_output ⟨0, [104, 105], []⟩ "x" =
    .error (.unexpectedTmuxOutput "x" ['h', 'i'] []) := by decide
theorem sanity_vector_08 : TmuxLib.fromUtf8Lossy [0xC3, 0xA9] = ['é'] := by decide
theorem sanity_vector_09 : TmuxLib.fromUtf8Lossy [0xFF, 65] = [TmuxLib.replacementChar, 'A'] := by decide

theorem sanity_vector_10 : TmuxLib.SessionId.from_str "$43".toList = .ok ⟨"$43".toList⟩ := by decide
theorem sanity_vector_11 : (TmuxLib.SessionId.from_str "$12:extra".toList).isOk = false := by decide
theorem sanity_vector_12 : (TmuxLib.SessionId.from_str "$".toList).isOk = false := by decide
theorem sanity_vector_13 : (TmuxLib.SessionId.from_str "@1".toList).isOk = false := by decide
theorem sanity_vector_14 : TmuxLib.decimal 99999 = "99999".toList := by decide
theorem sanity_vector_15 : TmuxLib.decimal 0 = "0".toList := by decide
theorem sanity_vector_16 : TmuxLib.WindowId.from_str "@0".toList = .ok ⟨"@0".toList⟩ := by decide

theorem sanity_vector_17 : TmuxLib.show_options_parse "".toList = none := by decide
theorem sanity_vector_18 : TmuxLib.show_options_parse "status on\nprefix C-b".toList =
    some [("status".toList, "on".toList), ("prefix".toList, "C-b".toList)] := by decide
theorem sanity_vector_19 : TmuxLib.show_options_parse "status \nmode on".toList =
    some [("mode".toList, "on".toList)] := by decide
theorem sanity_vector_20 : TmuxLib.show_options_parse "pane-border-style ''\nmode on".toList =
    some [("mode".toList, "on".toList)] := by decide
theorem sanity_vector_21 : TmuxLib.show_options_parse "status on\nbroken-line\nmode on".toList = none := by
  decide

theorem sanity_vector_22 : TmuxLib.default_command
    (fun k => if k = "default-shell" then some "/bin/bash" else none) =
    .ok "-l /bin/bash" := by decide
theorem sanity_vector_23 : TmuxLib.default_command
    (fun k => if k = "default-shell" then some "/bin/zsh"
      else if k = "default-command" then some "zsh -i" else none) =
    .ok "zsh -i" := by decide
theorem sanity_vector_24 : TmuxLib.default_command (fun _ => none) =
    .error (.tmuxConfig "no default-shell") := by decide

theorem sanity_vector_25 : TmuxLib.switch_client (.ok ⟨2, [1], [2]⟩) = some (.ok ()) := by decide
theorem sanity_vector_26 : TmuxLib.switch_client (.error 3) = none := by decide

theorem sanity_vector_27 : TmuxLib.Client.from_str "'current-session':'last-session'".toList =
    .ok ⟨"current-session".toList, "last-session".toList⟩ := by decide
theorem sanity_vector_28 : TmuxLib.Client.from_str "'my-session':''".toList =
    .ok ⟨"my-session".toList, []⟩ := by decide
theorem sanity_vector_29 : TmuxLib.Client.from_str "'':'x'".toList = .error TmuxLib.clientParseErr := by
  decide
theorem sanity_vector_30 : TmuxLib.Client.from_str "a:b".toList = .error TmuxLib.clientParseErr := by
  decide
theorem sanity_vector_31 : TmuxLib.Client.from_str "'a''b'".toList = .error TmuxLib.clientParseErr := by
  decide
theorem sanity_vector_32 : TmuxLib.Client.from_str "'a':'b':c".toList = .error TmuxLib.clientParseErr := by
  decide
theorem sanity_vector_33 : TmuxLib.Client.from_str "'server: $123':'dev-env'".toList =
    .ok ⟨"server: $123".toList, "dev-env".toList⟩ := by decide
theorem sanity_vector_34 : TmuxLib.Client.from_str ['\'', 'i', 't', '\\', '\'', 's', '\'', ':',
    '\'', '\''] = .ok ⟨['i', 't', '\\', '\'', 's'], []⟩ := by decide
theorem sanity_vector_35 : TmuxLib.quoted_string "'first':rest".toList =
    some (":rest".toList, "first".toList) := by decide
theorem sanity_vector_36 : TmuxLib.quoted_nonempty_string "''".toList = none := by decide
theorem sanity_vector_37 : TmuxLib.quoted_string "''".toList = some ([], []) := by decide
theorem sanity_vector_38 : TmuxLib.quoted_string "'unclosed".toList = none := by decide
